import Mathlib

/-!
Verification of the CSV cleaning and validation pipeline
(DataLoadingAndCleaning.py and LoadDataStructure.py).

The pandas DataFrame is embedded in two views, matching how each source
function manipulates it:
* a column-oriented view `ColFrame` (association list from column name to
  the list of cell values) for the per-column validators of
  LoadDataStructure.py (`validate_dates`, `validate_numeric_columns`,
  `standardize_categorical_columns`);
* a row-oriented view `List Row` for the file-level batch functions
  (`process_all_csv_files`, `load_cleaned_data`), where reading, the row
  cap, concatenation and duplicate removal act on whole rows.

Machine floats of the source are modelled as rationals; NaN/NaT is the
explicit `Value.missing`.
-/

namespace DftPipeline

/-- A cell value of a loaded DataFrame: a string, a number, a parsed
calendar date, or a missing value (NaN/NaT). -/
inductive Value where
  | str (s : String)
  | num (q : ℚ)
  | date (y m d : ℕ)
  | missing
deriving DecidableEq

/-- Column-oriented view of a DataFrame: column name to cell list. -/
abbrev ColFrame : Type := List (String × List Value)

/-- `df[c]` guarded by `c in df.columns`: the first column named `c`. -/
def getCol : ColFrame → String → Option (List Value)
  | [], _ => none
  | (n, col) :: rest, c => if n = c then some col else getCol rest c

/-- `df[c] = v`: replace the contents of every column named `c`. -/
def setCol : ColFrame → String → List Value → ColFrame
  | [], _, _ => []
  | (n, col) :: rest, c, v =>
    if n = c then (n, v) :: setCol rest c v else (n, col) :: setCol rest c v

/-- Python whitespace (the characters stripped by str.strip), by code point:
space, tab, newline, carriage return, vertical tab, form feed. -/
def isSpace (c : Char) : Bool :=
  c.toNat = 32 || c.toNat = 9 || c.toNat = 10 || c.toNat = 13 ||
    c.toNat = 11 || c.toNat = 12

/-- Remove leading whitespace. -/
def stripLeft (s : List Char) : List Char := s.dropWhile isSpace

/-- Remove trailing whitespace. -/
def stripRight (s : List Char) : List Char := (stripLeft s.reverse).reverse

/-- Python str.strip: remove leading and trailing whitespace. -/
def pyStrip (s : List Char) : List Char := stripLeft (stripRight s)

/-- Python str.upper on the ASCII letters (categorical values are ASCII). -/
def pyUpper (s : List Char) : List Char := s.map Char.toUpper

/-- ASCII digit value of a character, if it is a digit. -/
def digitVal (c : Char) : Option ℕ :=
  if 48 ≤ c.toNat ∧ c.toNat ≤ 57 then some (c.toNat - 48) else none

/-- Accumulate decimal digits; fails on the first non-digit. -/
def parseDigitsAux : List Char → ℕ → Option ℕ
  | [], acc => some acc
  | c :: cs, acc =>
    match digitVal c with
    | some d => parseDigitsAux cs (acc * 10 + d)
    | none => none

/-- Parse a non-empty all-digit string as a natural number. -/
def parseDigits (cs : List Char) : Option ℕ :=
  if cs.isEmpty then none else parseDigitsAux cs 0

/-- Split a character list at every occurrence of `sep`. -/
def splitOnChar (sep : Char) : List Char → List (List Char)
  | [] => [[]]
  | c :: cs =>
    if c = sep then [] :: splitOnChar sep cs
    else
      match splitOnChar sep cs with
      | [] => [[c]]
      | a :: rest => (c :: a) :: rest

/-- Decimal literal without sign: digits with an optional dot-separated
fractional part (at least one of the two parts non-empty). -/
def parseUnsigned (cs : List Char) : Option ℚ :=
  match splitOnChar '.' cs with
  | [i] => (parseDigits i).map (fun n => (n : ℚ))
  | [i, f] =>
    if i.isEmpty ∧ f.isEmpty then none
    else
      match (if i.isEmpty then some 0 else parseDigits i),
            (if f.isEmpty then some 0 else parseDigits f) with
      | some a, some b => some ((a : ℚ) + (b : ℚ) / (10 : ℚ) ^ f.length)
      | _, _ => none
  | _ => none

/-- Model of the numeric-literal parsing done by pd.to_numeric on a string:
optional surrounding whitespace, optional sign, decimal literal. -/
def parseDecimal (cs : List Char) : Option ℚ :=
  match pyStrip cs with
  | '-' :: rest => (parseUnsigned rest).map (fun q => -q)
  | '+' :: rest => parseUnsigned rest
  | other => parseUnsigned other

/-- pd.to_numeric with errors='coerce' on one cell: numbers pass through,
strings are parsed as decimal literals, everything else becomes NaN. -/
def toNumeric : Value → Option ℚ
  | .num q => some q
  | .str s => parseDecimal s.toList
  | .date _ _ _ => none
  | .missing => none

/-- Lines 45-46 of LoadDataStructure.py: a value strictly below the minimum
or strictly above the maximum is set to NaN; NaN compares false to both
bounds and stays NaN. -/
def maskCell (minVal maxVal : ℚ) : Option ℚ → Option ℚ
  | some v => if v < minVal ∨ v > maxVal then none else some v
  | none => none

/-- pandas Series.median over the non-missing values: sort, take the middle
element for an odd count, the mean of the two middle elements for an even
count, and NaN (none) for an empty list of values. -/
def median (xs : List ℚ) : Option ℚ :=
  let s := xs.insertionSort (fun a b => a ≤ b)
  if s.length = 0 then none
  else if s.length % 2 = 1 then s[s.length / 2]?
  else
    match s[s.length / 2 - 1]?, s[s.length / 2]? with
    | some a, some b => some ((a + b) / 2)
    | _, _ => none

/-- Repack an optional number as a cell (none is NaN). -/
def numValue : Option ℚ → Value
  | some q => .num q
  | none => .missing

/-- The median of a column's in-range, parsable values (line 47's
`df[column].median()`, computed on the coerced and masked column). -/
def colMedian (minVal maxVal : ℚ) (col : List Value) : Option ℚ :=
  median ((col.map (fun v => maskCell minVal maxVal (toNumeric v))).filterMap id)

/-- The loop body of validate_numeric_columns (lines 44-47) on one column:
coerce to numeric, mask out-of-range values to NaN, fill NaN with the
median of the remaining values. -/
def processColumn (minVal maxVal : ℚ) (col : List Value) : List Value :=
  (col.map (fun v => maskCell minVal maxVal (toNumeric v))).map
    (fun c => numValue (c.or (colMedian minVal maxVal col)))

/-- One `df[c] = F(df[c])` assignment guarded by `if c in df.columns`. -/
def applyColF (c : String) (F : List Value → List Value) (df : ColFrame) : ColFrame :=
  match getCol df c with
  | some col => setCol df c (F col)
  | none => df

/-- A sequence of guarded per-column assignments, in order. -/
def applyCols (ps : List (String × (List Value → List Value))) (df : ColFrame) : ColFrame :=
  ps.foldl (fun d p => applyColF p.1 p.2 d) df

/-- The numeric_validations dict of LoadDataStructure.py (lines 36-40). -/
def numericValidations : List (String × ℚ × ℚ) :=
  [("test_mileage", 0, 1000000), ("cylinder_capacity", 0, 10000), ("test_class_id", 1, 7)]

/-- validate_numeric_columns (lines 34-49). -/
def validate_numeric_columns (df : ColFrame) : ColFrame :=
  applyCols (numericValidations.map (fun p => (p.1, processColumn p.2.1 p.2.2))) df

/-- Gregorian leap year. -/
def leapYear (y : ℕ) : Bool :=
  y % 4 = 0 && (y % 100 != 0 || y % 400 = 0)

/-- Number of days in a month. -/
def daysInMonth (y m : ℕ) : ℕ :=
  if m = 2 then (if leapYear y then 29 else 28)
  else if m = 4 ∨ m = 6 ∨ m = 9 ∨ m = 11 then 30
  else 31

/-- Model of pd.to_datetime parsing of an ISO `YYYY-MM-DD` date string,
with calendar validity of the month and day. -/
def parseDateString (s : String) : Option (ℕ × ℕ × ℕ) :=
  match splitOnChar '-' (pyStrip s.toList) with
  | [ys, ms, ds] =>
    match parseDigits ys, parseDigits ms, parseDigits ds with
    | some y, some m, some d =>
      if 1 ≤ m ∧ m ≤ 12 ∧ 1 ≤ d ∧ d ≤ daysInMonth y m then some (y, m, d) else none
    | _, _, _ => none
  | _ => none

/-- pd.to_datetime with errors='coerce' on one cell: an already-parsed date
passes through, a string is parsed as a calendar date, anything else
(including NaN) becomes NaT. -/
def parseDateCell : Value → Option (ℕ × ℕ × ℕ)
  | .str s => parseDateString s
  | .date y m d => some (y, m, d)
  | .num _ => none
  | .missing => none

/-- The per-cell effect of a `pd.to_datetime(col, errors='coerce')`
assignment: parsable cells become dates, unparsable cells become missing. -/
def coerceDate (v : Value) : Value :=
  match parseDateCell v with
  | some (y, m, d) => .date y m d
  | none => .missing

/-- validate_dates (lines 26-32). -/
def validate_dates (df : ColFrame) : ColFrame :=
  applyCols [("test_date", List.map coerceDate), ("first_use_date", List.map coerceDate)] df

/-- astype(str) on one cell; NaN prints as "nan". -/
def toStr : Value → String
  | .str s => s
  | .num q => toString q
  | .date y m d => toString y ++ "-" ++ toString m ++ "-" ++ toString d
  | .missing => "nan"

/-- The replacement list of line 62 of LoadDataStructure.py. -/
def naLiterals : List String := ["", "NAN", "NONE", "NULL"]

/-- The composed per-cell effect of lines 58-62: strip, uppercase, and
replace any of the na literals with "N/A". -/
def stdString (s : String) : String :=
  let t := String.mk (pyUpper (pyStrip s.toList))
  if t ∈ naLiterals then "N/A" else t

/-- One categorical cell after astype(str), strip, upper, replace. -/
def stdCell (v : Value) : Value := .str (stdString (toStr v))

/-- The categorical_columns list of line 53. -/
def categoricalColumns : List String :=
  ["make", "model", "colour", "fuel_type", "test_type", "test_result"]

/-- standardize_categorical_columns (lines 51-64). -/
def standardize_categorical_columns (df : ColFrame) : ColFrame :=
  applyCols (categoricalColumns.map (fun c => (c, List.map stdCell))) df

/-! ### Row-oriented view: files, the cleaning batch, and the loader -/

/-- A data row of a CSV file. -/
abbrev Row : Type := List Value

/-- A CSV file on disk: its name and, when it can be read and parsed, its
data rows; `none` models a file whose read raises (ParseError, unreadable). -/
structure CsvFile where
  name : String
  content : Option (List Row)
deriving DecidableEq

/-- A folder on disk: the files it lists, in file-system listing order. -/
structure Folder where
  files : List CsvFile
deriving DecidableEq

/-- Python's `f.endswith('.csv')`: a case-sensitive suffix test. -/
def endsWithCsv (name : String) : Bool :=
  ".csv".toList.isSuffixOf name.toList

/-- Line 31 of DataLoadingAndCleaning.py and line 73 of
LoadDataStructure.py: keep the files whose name ends with '.csv'. -/
def listCsvFiles (files : List CsvFile) : List CsvFile :=
  files.filter (fun f => endsWithCsv f.name)

/-- Modelled from the spec: the claimed case-insensitive CSV extension
match ("discovers all CSV files (case-insensitive extension match)"),
written to compare against the source's `endsWithCsv`. -/
def csvCaseInsensitive (name : String) : Bool :=
  ".csv".toList.isSuffixOf (name.toList.map Char.toLower)

/-- fillna on one cell: only a missing cell is replaced. -/
def fillCell (placeholder : Value) (v : Value) : Value :=
  if v = .missing then placeholder else v

/-- The error-log line of line 57 of DataLoadingAndCleaning.py. -/
def errMsg (name : String) : String := "Error processing file " ++ name

/-- The only fatal error of the cleaning batch. -/
inductive PipelineError where
  | folderNotFound
deriving DecidableEq

/-- The observable outcome of the cleaning batch: the cleaned files written
to the output folder and the contents of processing_errors.log. -/
structure CleanResult where
  outputs : List (String × List Row)
  log : List String
deriving DecidableEq

/-- The try-block of lines 42-55 for one file: read at most rowsToRead data
rows, fill missing cells, name the output `cleaned_<name>`; none when the
read raises. -/
def processFile (rowsToRead : ℕ) (placeholder : Value) (f : CsvFile) :
    Option (String × List Row) :=
  f.content.map (fun rows =>
    ("cleaned_" ++ f.name, (rows.take rowsToRead).map (fun r => r.map (fillCell placeholder))))

/-- One iteration of the loop of lines 37-62: a successful file appends its
cleaned output, a failing file appends a line to the error log. -/
def processStep (rowsToRead : ℕ) (placeholder : Value) (acc : CleanResult) (f : CsvFile) :
    CleanResult :=
  match processFile rowsToRead placeholder f with
  | some out => { outputs := acc.outputs ++ [out], log := acc.log }
  | none => { outputs := acc.outputs, log := acc.log ++ [errMsg f.name] }

/-- process_all_csv_files (DataLoadingAndCleaning.py lines 5-62). `none` for
the folder models a folder path that does not exist; `log0` is the prior
contents of the append-only error log. -/
def process_all_csv_files (folder : Option Folder) (rowsToRead : ℕ) (placeholder : Value)
    (log0 : List String) : Except PipelineError CleanResult :=
  match folder with
  | none => .error .folderNotFound
  | some fo => .ok ((listCsvFiles fo.files).foldl (processStep rowsToRead placeholder) ⟨[], log0⟩)

/-- The fatal errors of load_cleaned_data. -/
inductive LoadError where
  | folderNotFound
  | emptyFolder
  | noDataLoaded
deriving DecidableEq

/-- drop_duplicates with the default keep='first': keep each row the first
time it appears, drop every later exact copy. -/
def dropDuplicates {α : Type u} [DecidableEq α] : List α → List α
  | [] => []
  | a :: l => a :: dropDuplicates (l.filter (fun b => b ≠ a))
termination_by l => l.length
decreasing_by
  simp only [List.length_cons]
  exact Nat.lt_succ_of_le (l.length_filter_le _)

/-- load_cleaned_data (LoadDataStructure.py lines 66-106): discover CSV
files, load each in full skipping failures, concatenate, deduplicate. -/
def load_cleaned_data (folder : Option Folder) : Except LoadError (List Row) :=
  match folder with
  | none => .error .folderNotFound
  | some fo =>
    let csvs := listCsvFiles fo.files
    if csvs.isEmpty then .error .emptyFolder
    else
      let dataframes := csvs.filterMap (fun f => f.content)
      if dataframes.isEmpty then .error .noDataLoaded
      else .ok (dropDuplicates dataframes.flatten)

/-! ### Lemmas about the column operations -/

theorem getCol_cons (n : String) (col : List Value) (rest : ColFrame) (c : String) :
    getCol ((n, col) :: rest) c = if n = c then some col else getCol rest c := rfl

theorem setCol_cons (n : String) (col : List Value) (rest : ColFrame) (c : String)
    (v : List Value) :
    setCol ((n, col) :: rest) c v =
      if n = c then (n, v) :: setCol rest c v else (n, col) :: setCol rest c v := rfl

theorem getCol_setCol_self (df : ColFrame) (c : String) (v : List Value) :
    getCol (setCol df c v) c = (getCol df c).map (fun _ => v) := by
  induction df with
  | nil => rfl
  | cons p rest ih =>
    obtain ⟨n, col⟩ := p
    by_cases h : n = c
    · rw [setCol_cons, if_pos h, getCol_cons, if_pos h, getCol_cons, if_pos h]
      rfl
    · rw [setCol_cons, if_neg h, getCol_cons, if_neg h, getCol_cons, if_neg h, ih]

theorem getCol_setCol_ne (df : ColFrame) {c c' : String} (v : List Value) (h : c' ≠ c) :
    getCol (setCol df c v) c' = getCol df c' := by
  induction df with
  | nil => rfl
  | cons p rest ih =>
    obtain ⟨n, col⟩ := p
    by_cases hn : n = c
    · have hn' : ¬ n = c' := fun hh => h (hh ▸ hn)
      rw [setCol_cons, if_pos hn, getCol_cons, if_neg hn', getCol_cons, if_neg hn', ih]
    · by_cases hn' : n = c'
      · rw [setCol_cons, if_neg hn, getCol_cons, if_pos hn', getCol_cons, if_pos hn']
      · rw [setCol_cons, if_neg hn, getCol_cons, if_neg hn', getCol_cons, if_neg hn', ih]

theorem setCol_setCol_same (df : ColFrame) (c : String) (v w : List Value) :
    setCol (setCol df c v) c w = setCol df c w := by
  induction df with
  | nil => rfl
  | cons p rest ih =>
    obtain ⟨n, col⟩ := p
    by_cases h : n = c
    · rw [setCol_cons, if_pos h, setCol_cons, if_pos h, setCol_cons, if_pos h, ih]
    · rw [setCol_cons, if_neg h, setCol_cons, if_neg h, setCol_cons, if_neg h, ih]

theorem setCol_setCol_comm (df : ColFrame) {c c' : String} (v w : List Value) (h : c ≠ c') :
    setCol (setCol df c v) c' w = setCol (setCol df c' w) c v := by
  induction df with
  | nil => rfl
  | cons p rest ih =>
    obtain ⟨n, col⟩ := p
    by_cases hn : n = c
    · have hn' : ¬ n = c' := fun hh => h (hn ▸ hh)
      rw [setCol_cons, if_pos hn, setCol_cons, if_neg hn', setCol_cons, if_neg hn',
        setCol_cons, if_pos hn, ih]
    · by_cases hn' : n = c'
      · rw [setCol_cons, if_neg hn, setCol_cons, if_pos hn', setCol_cons, if_pos hn',
          setCol_cons, if_neg hn, ih]
      · rw [setCol_cons, if_neg hn, setCol_cons, if_neg hn', setCol_cons, if_neg hn',
          setCol_cons, if_neg hn, ih]

theorem applyColF_of_some {df : ColFrame} {c : String} {col : List Value}
    (F : List Value → List Value) (h : getCol df c = some col) :
    applyColF c F df = setCol df c (F col) := by
  unfold applyColF
  rw [h]

theorem applyColF_of_none {df : ColFrame} {c : String}
    (F : List Value → List Value) (h : getCol df c = none) :
    applyColF c F df = df := by
  unfold applyColF
  rw [h]

theorem getCol_applyColF_self (c : String) (F : List Value → List Value) (df : ColFrame) :
    getCol (applyColF c F df) c = (getCol df c).map F := by
  cases h : getCol df c with
  | none => rw [applyColF_of_none F h, h]; rfl
  | some col => rw [applyColF_of_some F h, getCol_setCol_self, h]; rfl

theorem getCol_applyColF_ne (c : String) (F : List Value → List Value) (df : ColFrame)
    {c' : String} (h : c' ≠ c) :
    getCol (applyColF c F df) c' = getCol df c' := by
  cases hg : getCol df c with
  | none => rw [applyColF_of_none F hg]
  | some col => rw [applyColF_of_some F hg, getCol_setCol_ne _ _ h]

theorem applyColF_idem (c : String) (F : List Value → List Value)
    (hF : ∀ col, F (F col) = F col) (df : ColFrame) :
    applyColF c F (applyColF c F df) = applyColF c F df := by
  cases hg : getCol df c with
  | none => rw [applyColF_of_none F hg, applyColF_of_none F hg]
  | some col =>
    have h2 : getCol (applyColF c F df) c = some (F col) := by
      rw [getCol_applyColF_self, hg]; rfl
    rw [applyColF_of_some F h2, applyColF_of_some F hg, setCol_setCol_same, hF]

theorem applyColF_comm {c c' : String} (F G : List Value → List Value)
    (h : c ≠ c') (df : ColFrame) :
    applyColF c F (applyColF c' G df) = applyColF c' G (applyColF c F df) := by
  cases hg : getCol df c with
  | none =>
    have hg2 : getCol (applyColF c' G df) c = none := by
      rw [getCol_applyColF_ne _ _ _ h, hg]
    rw [applyColF_of_none F hg2, applyColF_of_none F hg]
  | some col =>
    have hg2 : getCol (applyColF c' G df) c = some col := by
      rw [getCol_applyColF_ne _ _ _ h, hg]
    cases hg' : getCol df c' with
    | none =>
      have hg'2 : getCol (applyColF c F df) c' = none := by
        rw [getCol_applyColF_ne _ _ _ (Ne.symm h), hg']
      rw [applyColF_of_none G hg', applyColF_of_none G hg'2]
    | some col' =>
      have hg'2 : getCol (applyColF c F df) c' = some col' := by
        rw [getCol_applyColF_ne _ _ _ (Ne.symm h), hg']
      rw [applyColF_of_some F hg2, applyColF_of_some G hg', applyColF_of_some G hg'2,
        applyColF_of_some F hg]
      exact setCol_setCol_comm df (G col') (F col) (Ne.symm h)

theorem getCol_applyCols_notMem (ps : List (String × (List Value → List Value)))
    (df : ColFrame) {c : String} (h : c ∉ ps.map Prod.fst) :
    getCol (applyCols ps df) c = getCol df c := by
  induction ps generalizing df with
  | nil => rfl
  | cons p rest ih =>
    simp only [List.map_cons, List.mem_cons, not_or] at h
    unfold applyCols
    simp only [List.foldl_cons]
    rw [show (List.foldl (fun d p => applyColF p.1 p.2 d) (applyColF p.1 p.2 df) rest) =
      applyCols rest (applyColF p.1 p.2 df) from rfl]
    rw [ih _ h.2, getCol_applyColF_ne _ _ _ h.1]

theorem applyCols_cons (p : String × (List Value → List Value))
    (ps : List (String × (List Value → List Value))) (df : ColFrame) :
    applyCols (p :: ps) df = applyCols ps (applyColF p.1 p.2 df) := rfl

theorem getCol_applyCols_mem (ps : List (String × (List Value → List Value)))
    (df : ColFrame) {c : String} {F : List Value → List Value}
    (hnd : (ps.map Prod.fst).Nodup) (hmem : (c, F) ∈ ps) :
    getCol (applyCols ps df) c = (getCol df c).map F := by
  induction ps generalizing df with
  | nil => cases hmem
  | cons p rest ih =>
    simp only [List.map_cons, List.nodup_cons] at hnd
    rw [applyCols_cons]
    rcases List.mem_cons.mp hmem with heq | htail
    · subst heq
      have hnot : c ∉ rest.map Prod.fst := by
        simpa using hnd.1
      rw [getCol_applyCols_notMem _ _ hnot, getCol_applyColF_self]
    · have hne : c ≠ p.1 := by
        intro hc
        exact hnd.1 (hc ▸ (List.mem_map_of_mem Prod.fst htail))
      rw [ih _ hnd.2 htail, getCol_applyColF_ne _ _ _ hne]

theorem applyColF_applyCols_comm (ps : List (String × (List Value → List Value)))
    {c : String} (F : List Value → List Value) (h : c ∉ ps.map Prod.fst) (df : ColFrame) :
    applyColF c F (applyCols ps df) = applyCols ps (applyColF c F df) := by
  induction ps generalizing df with
  | nil => rfl
  | cons p rest ih =>
    simp only [List.map_cons, List.mem_cons, not_or] at h
    rw [applyCols_cons, applyCols_cons, ih h.2, applyColF_comm _ _ h.1]

theorem applyCols_idem (ps : List (String × (List Value → List Value)))
    (hnd : (ps.map Prod.fst).Nodup)
    (hidem : ∀ p ∈ ps, ∀ col, p.2 (p.2 col) = p.2 col) (df : ColFrame) :
    applyCols ps (applyCols ps df) = applyCols ps df := by
  induction ps generalizing df with
  | nil => rfl
  | cons p rest ih =>
    simp only [List.map_cons, List.nodup_cons] at hnd
    have hnot : p.1 ∉ rest.map Prod.fst := by simpa using hnd.1
    rw [applyCols_cons, applyCols_cons]
    rw [applyColF_applyCols_comm rest p.2 hnot (applyColF p.1 p.2 df)]
    rw [applyColF_idem p.1 p.2 (hidem p (List.mem_cons_self p rest)) df]
    exact ih hnd.2 (fun q hq => hidem q (List.mem_cons_of_mem p hq)) _

/-! ### Numeric validation: claims C1 and C10 -/

theorem maskCell_some {mn mx : ℚ} {o : Option ℚ} {v : ℚ}
    (h : maskCell mn mx o = some v) : mn ≤ v ∧ v ≤ mx := by
  cases o with
  | none => simp [maskCell] at h
  | some w =>
    simp only [maskCell] at h
    by_cases hc : w < mn ∨ w > mx
    · rw [if_pos hc] at h
      cases h
    · rw [if_neg hc] at h
      injection h with hv
      subst hv
      push_neg at hc
      exact hc

theorem getCol_validate_numeric {df : ColFrame} {c : String} {mn mx : ℚ} {col : List Value}
    (hmem : (c, mn, mx) ∈ numericValidations) (h : getCol df c = some col) :
    getCol (validate_numeric_columns df) c = some (processColumn mn mx col) := by
  have hmem' : (c, processColumn mn mx) ∈
      numericValidations.map (fun p => (p.1, processColumn p.2.1 p.2.2)) :=
    List.mem_map_of_mem (fun p => (p.1, processColumn p.2.1 p.2.2)) hmem
  have hnd : ((numericValidations.map (fun p => (p.1, processColumn p.2.1 p.2.2))).map
      Prod.fst).Nodup := by
    simp [numericValidations]
  unfold validate_numeric_columns
  rw [getCol_applyCols_mem _ _ hnd hmem', h]
  rfl

theorem processColumn_length (mn mx : ℚ) (col : List Value) :
    (processColumn mn mx col).length = col.length := by
  simp [processColumn]

theorem processColumn_get (mn mx : ℚ) (col : List Value) (i : ℕ)
    (h : i < (processColumn mn mx col).length) (h2 : i < col.length) :
    (processColumn mn mx col).get ⟨i, h⟩ =
      numValue ((maskCell mn mx (toNumeric (col.get ⟨i, h2⟩))).or (colMedian mn mx col)) := by
  simp [processColumn, List.get_eq_getElem, List.getElem_map]

/-- Claim C1: after validate_numeric_columns, every numeric value in a
bounded numeric column lies within its declared [min, max] range inclusive
or equals the median of the column's in-range parsable values, and every
cell that was unparsable or strictly out of range now holds that median. -/
theorem claim_C1 (df : ColFrame) (c : String) (mn mx : ℚ) (col col' : List Value)
    (hmem : (c, mn, mx) ∈ numericValidations)
    (hcol : getCol df c = some col)
    (hcol' : getCol (validate_numeric_columns df) c = some col') :
    col'.length = col.length ∧
    ∀ i (hi : i < col'.length) (hi2 : i < col.length),
      (∀ q : ℚ, col'.get ⟨i, hi⟩ = Value.num q →
        ((mn ≤ q ∧ q ≤ mx) ∨ some q = colMedian mn mx col)) ∧
      (maskCell mn mx (toNumeric (col.get ⟨i, hi2⟩)) = none →
        col'.get ⟨i, hi⟩ = numValue (colMedian mn mx col)) := by
  have hve := getCol_validate_numeric hmem hcol
  rw [hcol'] at hve
  have hcc : col' = processColumn mn mx col := Option.some.inj hve
  subst hcc
  refine ⟨processColumn_length mn mx col, ?_⟩
  intro i hi hi2
  rw [processColumn_get mn mx col i hi hi2]
  cases hmc : maskCell mn mx (toNumeric (col.get ⟨i, hi2⟩)) with
  | some v =>
    constructor
    · intro q hq
      simp only [Option.or] at hq
      injection hq with hv
      exact Or.inl (hv ▸ maskCell_some hmc)
    · intro hcontra
      cases hcontra
  | none =>
    constructor
    · intro q hq
      simp only [Option.or] at hq
      right
      cases hm : colMedian mn mx col with
      | none =>
        rw [hm] at hq
        cases hq
      | some qq =>
        rw [hm] at hq
        injection hq with hv
        rw [hv]
    · intro _
      rfl

/-- Input for the C1 witness: the spec's own scenario, a test_mileage
column holding 500000, the out-of-range 2000000, and a missing cell. -/
def sampleNumFrame : ColFrame :=
  [("test_mileage", [Value.num 500000, Value.num 2000000, Value.missing])]

theorem claim_C1_witness :
    ([Value.num 500000, Value.num 500000, Value.num 500000] : List Value).length =
      ([Value.num 500000, Value.num 2000000, Value.missing] : List Value).length ∧
    ∀ i (hi : i < ([Value.num 500000, Value.num 500000, Value.num 500000] : List Value).length)
      (hi2 : i < ([Value.num 500000, Value.num 2000000, Value.missing] : List Value).length),
      (∀ q : ℚ,
        ([Value.num 500000, Value.num 500000, Value.num 500000] : List Value).get ⟨i, hi⟩ =
          Value.num q →
        (((0 : ℚ) ≤ q ∧ q ≤ 1000000) ∨
          some q = colMedian 0 1000000 [Value.num 500000, Value.num 2000000, Value.missing])) ∧
      (maskCell 0 1000000
          (toNumeric (([Value.num 500000, Value.num 2000000, Value.missing] : List Value).get
            ⟨i, hi2⟩)) = none →
        ([Value.num 500000, Value.num 500000, Value.num 500000] : List Value).get ⟨i, hi⟩ =
          numValue (colMedian 0 1000000 [Value.num 500000, Value.num 2000000, Value.missing])) :=
  claim_C1 sampleNumFrame "test_mileage" 0 1000000
    [Value.num 500000, Value.num 2000000, Value.missing]
    [Value.num 500000, Value.num 500000, Value.num 500000]
    (by decide) (by decide) (by decide)

/-- Claim C10: when a bounded numeric column has zero valid values, no
error is raised: the median of the empty set is the missing value, the
fill is a no-op, and every cell of the column is left missing. -/
theorem claim_C10 (df : ColFrame) (c : String) (mn mx : ℚ) (col : List Value)
    (hmem : (c, mn, mx) ∈ numericValidations)
    (hcol : getCol df c = some col)
    (hinv : ∀ v ∈ col, maskCell mn mx (toNumeric v) = none) :
    colMedian mn mx col = none ∧
    getCol (validate_numeric_columns df) c = some (col.map (fun _ => Value.missing)) := by
  have hnil : (col.map (fun v => maskCell mn mx (toNumeric v))).filterMap id = [] := by
    rw [List.filterMap_eq_nil_iff]
    intro a ha
    rcases List.mem_map.mp ha with ⟨v, hv, rfl⟩
    exact hinv v hv
  have hmed : colMedian mn mx col = none := by
    unfold colMedian
    rw [hnil]
    rfl
  refine ⟨hmed, ?_⟩
  rw [getCol_validate_numeric hmem hcol]
  have hpc : processColumn mn mx col = col.map (fun _ => Value.missing) := by
    unfold processColumn
    rw [hmed, List.map_map]
    refine List.map_congr_left ?_
    intro v hv
    simp only [Function.comp]
    rw [hinv v hv]
    rfl
  rw [hpc]

/-- Input for the C10 witness: a test_class_id column whose three cells are
all invalid (out of range, unparsable, missing). -/
def sampleEmptyFrame : ColFrame :=
  [("test_class_id", [Value.num 9, Value.str "abc", Value.missing])]

theorem claim_C10_witness :
    colMedian 1 7 [Value.num 9, Value.str "abc", Value.missing] = none ∧
    getCol (validate_numeric_columns sampleEmptyFrame) "test_class_id" =
      some ([Value.num 9, Value.str "abc", Value.missing].map (fun _ => Value.missing)) :=
  claim_C10 sampleEmptyFrame "test_class_id" 1 7 [Value.num 9, Value.str "abc", Value.missing]
    (by decide) (by decide) (by decide)

/-! ### Date validation: claim C8 -/

theorem getCol_validate_dates {df : ColFrame} {c : String} {col : List Value}
    (hc : c = "test_date" ∨ c = "first_use_date") (h : getCol df c = some col) :
    getCol (validate_dates df) c = some (col.map coerceDate) := by
  have hnd : (([("test_date", List.map coerceDate),
      ("first_use_date", List.map coerceDate)].map Prod.fst)).Nodup := by
    simp
  have hmem : (c, List.map coerceDate) ∈
      [("test_date", List.map coerceDate), ("first_use_date", List.map coerceDate)] := by
    rcases hc with hc | hc
    · subst hc; exact List.mem_cons_self _ _
    · subst hc; exact List.mem_cons_of_mem _ (List.mem_cons_self _ _)
  unfold validate_dates
  rw [getCol_applyCols_mem _ _ hnd hmem, h]
  rfl

/-- Claim C8: for every cell of test_date or first_use_date, the date
validator parses the cell as a calendar date; a cell that fails to parse is
coerced to missing rather than raising, and a parsable cell becomes its
parsed date. -/
theorem claim_C8 (df : ColFrame) (c : String) (col : List Value)
    (hc : c = "test_date" ∨ c = "first_use_date")
    (h : getCol df c = some col) :
    getCol (validate_dates df) c = some (col.map coerceDate) ∧
    (∀ v, parseDateCell v = none → coerceDate v = Value.missing) ∧
    (∀ v y m d, parseDateCell v = some (y, m, d) → coerceDate v = Value.date y m d) := by
  refine ⟨getCol_validate_dates hc h, ?_, ?_⟩
  · intro v hv
    unfold coerceDate
    rw [hv]
  · intro v y m d hv
    unfold coerceDate
    rw [hv]

/-- Input for the C8 witness: a test_date column with the spec's unparsable
"not-a-date" cell next to a parsable ISO date. -/
def sampleDateFrame : ColFrame :=
  [("test_date", [Value.str "not-a-date", Value.str "2021-05-17"])]

theorem claim_C8_witness :
    getCol (validate_dates sampleDateFrame) "test_date" =
      some ([Value.str "not-a-date", Value.str "2021-05-17"].map coerceDate) ∧
    (∀ v, parseDateCell v = none → coerceDate v = Value.missing) ∧
    (∀ v y m d, parseDateCell v = some (y, m, d) → coerceDate v = Value.date y m d) :=
  claim_C8 sampleDateFrame "test_date" [Value.str "not-a-date", Value.str "2021-05-17"]
    (Or.inl rfl) (by decide)

/-! ### Categorical standardization: claim C7 -/

theorem toNat_ofNat_valid {n : ℕ} (h : n.isValidChar) : (Char.ofNat n).toNat = n := by
  have e : Char.ofNat n = Char.ofNatAux n h := dif_pos h
  rw [e]
  rfl

theorem toUpper_of_lower {c : Char} (h : 97 ≤ c.toNat ∧ c.toNat ≤ 122) :
    (Char.toUpper c).toNat = c.toNat - 32 := by
  have e : Char.toUpper c =
      if c.toNat ≥ 97 ∧ c.toNat ≤ 122 then Char.ofNat (c.toNat - 32) else c := rfl
  rw [e, if_pos h]
  exact toNat_ofNat_valid (Or.inl (by omega))

theorem toUpper_of_not_lower {c : Char} (h : ¬(97 ≤ c.toNat ∧ c.toNat ≤ 122)) :
    Char.toUpper c = c := by
  have e : Char.toUpper c =
      if c.toNat ≥ 97 ∧ c.toNat ≤ 122 then Char.ofNat (c.toNat - 32) else c := rfl
  rw [e, if_neg h]

theorem toUpper_toUpper (c : Char) : Char.toUpper (Char.toUpper c) = Char.toUpper c := by
  by_cases h : 97 ≤ c.toNat ∧ c.toNat ≤ 122
  · have h2 := toUpper_of_lower h
    apply toUpper_of_not_lower
    omega
  · rw [toUpper_of_not_lower h, toUpper_of_not_lower h]

theorem isSpace_toUpper (c : Char) : isSpace (Char.toUpper c) = isSpace c := by
  by_cases h : 97 ≤ c.toNat ∧ c.toNat ≤ 122
  · have h2 := toUpper_of_lower h
    have e1 : isSpace (Char.toUpper c) = false := by
      unfold isSpace
      simp only [Bool.or_eq_false_iff, decide_eq_false_iff_not]
      omega
    have e2 : isSpace c = false := by
      unfold isSpace
      simp only [Bool.or_eq_false_iff, decide_eq_false_iff_not]
      omega
    rw [e1, e2]
  · rw [toUpper_of_not_lower h]

theorem isSpace_comp_toUpper : (isSpace ∘ Char.toUpper) = isSpace :=
  funext isSpace_toUpper

theorem dropWhile_idem (p : α → Bool) (l : List α) :
    (l.dropWhile p).dropWhile p = l.dropWhile p := by
  induction l with
  | nil => rfl
  | cons a t ih =>
    by_cases h : p a
    · rw [List.dropWhile_cons_of_pos h]
      exact ih
    · rw [List.dropWhile_cons_of_neg h, List.dropWhile_cons_of_neg h]

theorem stripLeft_idem (s : List Char) : stripLeft (stripLeft s) = stripLeft s :=
  dropWhile_idem isSpace s

theorem stripLeft_eq_self_head {s : List Char} {a : Char} {t : List Char}
    (h : stripLeft s = s) (hs : s = a :: t) : isSpace a = false := by
  subst hs
  by_cases hp : isSpace a
  · exfalso
    rw [stripLeft, List.dropWhile_cons_of_pos hp] at h
    have hsub : List.Sublist (t.dropWhile isSpace) t := List.dropWhile_sublist isSpace
    have hle := hsub.length_le
    rw [h] at hle
    simp at hle
  · simpa using hp

theorem stripLeft_eq_self_of_head {s : List Char}
    (h : ∀ a t, s = a :: t → isSpace a = false) : stripLeft s = s := by
  cases s with
  | nil => rfl
  | cons a t =>
    have ha := h a t rfl
    rw [stripLeft, List.dropWhile_cons_of_neg (by simp [ha])]

theorem stripRight_decomp (s : List Char) :
    s = stripRight s ++ (s.reverse.takeWhile isSpace).reverse := by
  have h0 : List.takeWhile isSpace s.reverse ++ List.dropWhile isSpace s.reverse = s.reverse :=
    List.takeWhile_append_dropWhile isSpace s.reverse
  have h1 := congrArg List.reverse h0
  rw [List.reverse_append, List.reverse_reverse] at h1
  exact h1.symm

theorem stripLeft_stripRight (s : List Char) (h : stripLeft s = s) :
    stripLeft (stripRight s) = stripRight s := by
  apply stripLeft_eq_self_of_head
  intro a t hat
  have hdec := stripRight_decomp s
  rw [hat, List.cons_append] at hdec
  exact stripLeft_eq_self_head h hdec

theorem stripRight_eq_self_of_head {s : List Char}
    (h : ∀ a t, s.reverse = a :: t → isSpace a = false) : stripRight s = s := by
  unfold stripRight
  rw [stripLeft_eq_self_of_head h, List.reverse_reverse]

theorem stripRight_eq_self_head {s : List Char} {a : Char} {t : List Char}
    (h : stripRight s = s) (hs : s.reverse = a :: t) : isSpace a = false := by
  have h2 : stripLeft s.reverse = s.reverse := by
    have h3 := congrArg List.reverse h
    unfold stripRight at h3
    rw [List.reverse_reverse] at h3
    exact h3
  exact stripLeft_eq_self_head h2 hs

theorem stripRight_stripLeft (s : List Char) (h : stripRight s = s) :
    stripRight (stripLeft s) = stripLeft s := by
  apply stripRight_eq_self_of_head
  intro a t hat
  have hrev : s.reverse =
      (List.dropWhile isSpace s).reverse ++ (List.takeWhile isSpace s).reverse := by
    rw [← List.reverse_append, List.takeWhile_append_dropWhile]
  have hat' : (List.dropWhile isSpace s).reverse = a :: t := hat
  rw [hat', List.cons_append] at hrev
  exact stripRight_eq_self_head h hrev

theorem stripRight_idem (s : List Char) : stripRight (stripRight s) = stripRight s := by
  unfold stripRight stripLeft
  rw [List.reverse_reverse, dropWhile_idem]

theorem pyStrip_idem (s : List Char) : pyStrip (pyStrip s) = pyStrip s := by
  unfold pyStrip
  rw [stripRight_stripLeft (stripRight s) (stripRight_idem s), stripLeft_idem]

theorem stripLeft_pyUpper (s : List Char) : stripLeft (pyUpper s) = pyUpper (stripLeft s) := by
  unfold stripLeft pyUpper
  rw [List.dropWhile_map, isSpace_comp_toUpper]

theorem stripRight_pyUpper (s : List Char) :
    stripRight (pyUpper s) = pyUpper (stripRight s) := by
  unfold stripRight stripLeft pyUpper
  rw [← List.map_reverse, List.dropWhile_map, isSpace_comp_toUpper, List.map_reverse]

theorem pyStrip_pyUpper (s : List Char) : pyStrip (pyUpper s) = pyUpper (pyStrip s) := by
  unfold pyStrip
  rw [stripRight_pyUpper, stripLeft_pyUpper]

theorem pyUpper_idem (s : List Char) : pyUpper (pyUpper s) = pyUpper s := by
  unfold pyUpper
  rw [List.map_map]
  exact List.map_congr_left (fun a _ => toUpper_toUpper a)

theorem toList_mk (l : List Char) : (String.mk l).toList = l := rfl

theorem stdString_def (s : String) :
    stdString s = if String.mk (pyUpper (pyStrip s.toList)) ∈ naLiterals then "N/A"
      else String.mk (pyUpper (pyStrip s.toList)) := rfl

theorem stdString_NA : stdString "N/A" = "N/A" := by decide

theorem stdString_idem (s : String) : stdString (stdString s) = stdString s := by
  rw [stdString_def s]
  by_cases h : String.mk (pyUpper (pyStrip s.toList)) ∈ naLiterals
  · rw [if_pos h, stdString_NA]
  · rw [if_neg h, stdString_def, toList_mk]
    have hstrip : pyStrip (pyUpper (pyStrip s.toList)) = pyUpper (pyStrip s.toList) := by
      rw [pyStrip_pyUpper, pyStrip_idem]
    rw [hstrip, pyUpper_idem, if_neg h]

theorem toStr_str (s : String) : toStr (Value.str s) = s := rfl

theorem stdCell_idem (v : Value) : stdCell (stdCell v) = stdCell v := by
  unfold stdCell
  rw [toStr_str, stdString_idem]

theorem map_stdCell_idem (col : List Value) :
    List.map stdCell (List.map stdCell col) = List.map stdCell col := by
  rw [List.map_map]
  exact List.map_congr_left (fun a _ => stdCell_idem a)

/-- Claim C7: categorical standardization is idempotent — applying
standardize_categorical_columns twice is the same as applying it once —
and each present categorical column is rewritten cell by cell to its
string form, stripped, uppercased, with the na literals replaced by
"N/A"; in particular the cell " null " becomes "N/A". -/
theorem claim_C7 (df : ColFrame) :
    standardize_categorical_columns (standardize_categorical_columns df) =
      standardize_categorical_columns df ∧
    (∀ c ∈ categoricalColumns, ∀ col, getCol df c = some col →
      getCol (standardize_categorical_columns df) c = some (col.map stdCell)) ∧
    stdCell (Value.str " null ") = Value.str "N/A" := by
  have hnd : ((categoricalColumns.map (fun c => (c, List.map stdCell))).map Prod.fst).Nodup := by
    simp [categoricalColumns]
  refine ⟨?_, ?_, by decide⟩
  · unfold standardize_categorical_columns
    apply applyCols_idem _ hnd
    intro p hp col
    rcases List.mem_map.mp hp with ⟨c, _, rfl⟩
    exact map_stdCell_idem col
  · intro c hc col hcol
    unfold standardize_categorical_columns
    rw [getCol_applyCols_mem _ _ hnd (List.mem_map_of_mem (fun c => (c, List.map stdCell)) hc),
      hcol]
    rfl

/-- Input for the C7 witness: a colour column holding the spec's " null "
cell and a missing cell. -/
def sampleCatFrame : ColFrame := [("colour", [Value.str " null ", Value.missing])]

theorem claim_C7_witness :
    standardize_categorical_columns (standardize_categorical_columns sampleCatFrame) =
      standardize_categorical_columns sampleCatFrame ∧
    getCol (standardize_categorical_columns sampleCatFrame) "colour" =
      some ([Value.str " null ", Value.missing].map stdCell) ∧
    stdCell (Value.str " null ") = Value.str "N/A" :=
  ⟨(claim_C7 sampleCatFrame).1,
   (claim_C7 sampleCatFrame).2.1 "colour" (by decide) [Value.str " null ", Value.missing]
     (by decide),
   (claim_C7 sampleCatFrame).2.2⟩

/-! ### The cleaning batch: claims C9 and C4 -/

theorem processFile_eq {n : ℕ} {p : Value} {f : CsvFile} {rows : List Row}
    (hc : f.content = some rows) :
    processFile n p f =
      some ("cleaned_" ++ f.name, (rows.take n).map (fun r => r.map (fillCell p))) := by
  unfold processFile
  rw [hc]
  rfl

theorem getElem_take_eq {α : Type u} (l : List α) (n i : ℕ)
    (h : i < (l.take n).length) (h2 : i < l.length) :
    (l.take n).get ⟨i, h⟩ = l.get ⟨i, h2⟩ := by
  have hlen : (l.take n).length = min n l.length := by simp
  have hn : i < n := by omega
  have e1 : (l.take n)[i]? = l[i]? := List.getElem?_take_of_lt hn
  rw [List.getElem?_eq_getElem h, List.getElem?_eq_getElem h2] at e1
  have e2 := Option.some.inj e1
  simp only [List.get_eq_getElem]
  exact e2

/-- Claim C9: for every file read successfully with row cap rowsToRead, the
cleaned output's data row count is the minimum of the original data row
count and the row cap. -/
theorem claim_C9 (n : ℕ) (p : Value) (f : CsvFile) (rows : List Row)
    (name : String) (out : List Row)
    (hc : f.content = some rows)
    (hp : processFile n p f = some (name, out)) :
    out.length = min rows.length n := by
  rw [processFile_eq hc] at hp
  have h3 : out = (rows.take n).map (fun r => r.map (fillCell p)) :=
    (congrArg Prod.snd (Option.some.inj hp)).symm
  rw [h3, List.length_map, List.length_take, Nat.min_comm]

/-- Input for the C9 witness: a readable three-row file. -/
def sampleCsvFile : CsvFile :=
  ⟨"a.csv", some [[Value.num 1], [Value.num 2], [Value.num 3]]⟩

theorem claim_C9_witness :
    ([[Value.num 1], [Value.num 2]] : List Row).length =
      min ([[Value.num 1], [Value.num 2], [Value.num 3]] : List Row).length 2 :=
  claim_C9 2 (Value.str "N/A") sampleCsvFile [[Value.num 1], [Value.num 2], [Value.num 3]]
    "cleaned_a.csv" [[Value.num 1], [Value.num 2]] (by decide) (by decide)

theorem fillCell_of_ne {p v : Value} (h : v ≠ Value.missing) : fillCell p v = v :=
  if_neg h

theorem fillCell_ne_missing {p : Value} (hp : p ≠ Value.missing) (v : Value) :
    fillCell p v ≠ Value.missing := by
  unfold fillCell
  by_cases h : v = Value.missing
  · rw [if_pos h]
    exact hp
  · rw [if_neg h]
    exact h

/-- Claim C4: the missing-value filling step leaves every non-missing cell
unchanged (the placeholder only replaces missing cells), every missing cell
becomes exactly the placeholder, and when the placeholder is not itself
missing, the cleaned output has no missing cell: every cell is original
data or the placeholder. -/
theorem claim_C4 (n : ℕ) (p : Value) (f : CsvFile) (rows : List Row)
    (name : String) (out : List Row)
    (hc : f.content = some rows)
    (hp : processFile n p f = some (name, out)) :
    (∀ i j (hi : i < out.length) (hi2 : i < rows.length)
      (hj : j < (out.get ⟨i, hi⟩).length) (hj2 : j < (rows.get ⟨i, hi2⟩).length),
      ((rows.get ⟨i, hi2⟩).get ⟨j, hj2⟩ ≠ Value.missing →
        (out.get ⟨i, hi⟩).get ⟨j, hj⟩ = (rows.get ⟨i, hi2⟩).get ⟨j, hj2⟩) ∧
      ((rows.get ⟨i, hi2⟩).get ⟨j, hj2⟩ = Value.missing →
        (out.get ⟨i, hi⟩).get ⟨j, hj⟩ = p)) ∧
    (p ≠ Value.missing → ∀ r ∈ out, ∀ v ∈ r, v ≠ Value.missing) := by
  rw [processFile_eq hc] at hp
  have h3 : out = (rows.take n).map (fun r => r.map (fillCell p)) :=
    (congrArg Prod.snd (Option.some.inj hp)).symm
  subst h3
  constructor
  · intro i j hi hi2 hj hj2
    have hti : i < (rows.take n).length := by
      rw [List.length_map] at hi
      exact hi
    have hR : ((rows.take n).map (fun r => r.map (fillCell p))).get ⟨i, hi⟩ =
        (rows.get ⟨i, hi2⟩).map (fillCell p) := by
      have h1 : ((rows.take n).map (fun r => r.map (fillCell p))).get ⟨i, hi⟩ =
          ((rows.take n).get ⟨i, hti⟩).map (fillCell p) := by
        simp [List.get_eq_getElem]
      rw [h1, getElem_take_eq rows n i hti hi2]
    have hget : ∀ hjx : j < ((rows.get ⟨i, hi2⟩).map (fillCell p)).length,
        ((rows.get ⟨i, hi2⟩).map (fillCell p)).get ⟨j, hjx⟩ =
          fillCell p ((rows.get ⟨i, hi2⟩).get ⟨j, hj2⟩) := by
      intro hjx
      simp [List.get_eq_getElem]
    constructor
    · intro hne
      rw [List.get_of_eq hR ⟨j, hj⟩, hget _]
      exact fillCell_of_ne hne
    · intro hmiss
      rw [List.get_of_eq hR ⟨j, hj⟩, hget _, hmiss]
      exact if_pos rfl
  · intro hpm r hr v hv
    rcases List.mem_map.mp hr with ⟨r0, _, rfl⟩
    rcases List.mem_map.mp hv with ⟨v0, _, rfl⟩
    exact fillCell_ne_missing hpm v0

/-- Input for the C4 witness: a file whose single row holds data, an empty
string, and a missing cell. -/
def sampleFillFile : CsvFile :=
  ⟨"b.csv", some [[Value.num 3, Value.str "", Value.missing]]⟩

theorem claim_C4_witness :
    (∀ i j (hi : i < ([[Value.num 3, Value.str "", Value.str "N/A"]] : List Row).length)
      (hi2 : i < ([[Value.num 3, Value.str "", Value.missing]] : List Row).length)
      (hj : j < (([[Value.num 3, Value.str "", Value.str "N/A"]] : List Row).get ⟨i, hi⟩).length)
      (hj2 : j < (([[Value.num 3, Value.str "", Value.missing]] : List Row).get ⟨i, hi2⟩).length),
      ((([[Value.num 3, Value.str "", Value.missing]] : List Row).get ⟨i, hi2⟩).get ⟨j, hj2⟩ ≠
          Value.missing →
        (([[Value.num 3, Value.str "", Value.str "N/A"]] : List Row).get ⟨i, hi⟩).get ⟨j, hj⟩ =
          (([[Value.num 3, Value.str "", Value.missing]] : List Row).get ⟨i, hi2⟩).get
            ⟨j, hj2⟩) ∧
      ((([[Value.num 3, Value.str "", Value.missing]] : List Row).get ⟨i, hi2⟩).get ⟨j, hj2⟩ =
          Value.missing →
        (([[Value.num 3, Value.str "", Value.str "N/A"]] : List Row).get ⟨i, hi⟩).get ⟨j, hj⟩ =
          Value.str "N/A")) ∧
    (Value.str "N/A" ≠ Value.missing →
      ∀ r ∈ ([[Value.num 3, Value.str "", Value.str "N/A"]] : List Row), ∀ v ∈ r,
        v ≠ Value.missing) :=
  claim_C4 50000 (Value.str "N/A") sampleFillFile [[Value.num 3, Value.str "", Value.missing]]
    "cleaned_b.csv" [[Value.num 3, Value.str "", Value.str "N/A"]] (by decide) (by decide)

/-! ### The batch loop: claim C2 -/

theorem processFile_of_none {n : ℕ} {p : Value} {f : CsvFile} (h : f.content = none) :
    processFile n p f = none := by
  unfold processFile
  rw [h]
  rfl

theorem processStep_some {n : ℕ} {p : Value} {f : CsvFile} {out : String × List Row}
    (acc : CleanResult) (h : processFile n p f = some out) :
    processStep n p acc f = ⟨acc.outputs ++ [out], acc.log⟩ := by
  unfold processStep
  rw [h]

theorem processStep_none {n : ℕ} {p : Value} {f : CsvFile}
    (acc : CleanResult) (h : processFile n p f = none) :
    processStep n p acc f = ⟨acc.outputs, acc.log ++ [errMsg f.name]⟩ := by
  unfold processStep
  rw [h]

theorem process_fold (n : ℕ) (p : Value) (fs : List CsvFile) (acc : CleanResult) :
    fs.foldl (processStep n p) acc =
      ⟨acc.outputs ++ fs.filterMap (processFile n p),
       acc.log ++ (fs.filter (fun f => f.content.isNone)).map (fun f => errMsg f.name)⟩ := by
  induction fs generalizing acc with
  | nil => simp
  | cons f rest ih =>
    rw [List.foldl_cons]
    cases hc : f.content with
    | some rows =>
      rw [processStep_some acc (processFile_eq hc), ih]
      simp [List.filterMap_cons, processFile_eq hc, List.filter_cons, hc]
    | none =>
      rw [processStep_none acc (processFile_of_none hc), ih]
      simp [List.filterMap_cons, processFile_of_none hc, List.filter_cons, hc]

theorem process_some (fo : Folder) (n : ℕ) (p : Value) (log0 : List String) :
    process_all_csv_files (some fo) n p log0 =
      Except.ok ((listCsvFiles fo.files).foldl (processStep n p) ⟨[], log0⟩) := rfl

/-- Claim C2: the cleaning batch fails fatally only when the input folder
does not exist; on an existing folder it always succeeds, each per-file
failure appends its message to the append-only error log (whose prior
contents are preserved), every successful file contributes its cleaned
output, and a bad file never aborts the run. -/
theorem claim_C2 (n : ℕ) (p : Value) (log0 : List String) :
    process_all_csv_files none n p log0 = Except.error PipelineError.folderNotFound ∧
    ∀ fo : Folder, ∃ r : CleanResult,
      process_all_csv_files (some fo) n p log0 = Except.ok r ∧
      r.outputs = (listCsvFiles fo.files).filterMap (processFile n p) ∧
      r.log = log0 ++ ((listCsvFiles fo.files).filter (fun f => f.content.isNone)).map
        (fun f => errMsg f.name) := by
  refine ⟨rfl, ?_⟩
  intro fo
  refine ⟨(listCsvFiles fo.files).foldl (processStep n p) ⟨[], log0⟩, rfl, ?_, ?_⟩
  · rw [process_fold]
    simp
  · rw [process_fold]

/-! ### The cleaned-data loader: claims C5 and C6 -/

theorem load_cleaned_data_some (fo : Folder) :
    load_cleaned_data (some fo) =
      (if (listCsvFiles fo.files).isEmpty then Except.error LoadError.emptyFolder
       else if ((listCsvFiles fo.files).filterMap (fun f => f.content)).isEmpty then
         Except.error LoadError.noDataLoaded
       else Except.ok (dropDuplicates ((listCsvFiles fo.files).filterMap
         (fun f => f.content)).flatten)) := rfl

/-- Claim C5: the loader fails with the empty-folder error when no CSV
files are found (returning no partial dataset), fails with the
no-data-loaded error when every discovered file failed to load, and
otherwise returns the combined, deduplicated dataset. -/
theorem claim_C5 (fo : Folder) :
    (listCsvFiles fo.files = [] →
      load_cleaned_data (some fo) = Except.error LoadError.emptyFolder) ∧
    (listCsvFiles fo.files ≠ [] → (∀ f ∈ listCsvFiles fo.files, f.content = none) →
      load_cleaned_data (some fo) = Except.error LoadError.noDataLoaded) ∧
    ((∃ f ∈ listCsvFiles fo.files, f.content ≠ none) →
      ∃ d, load_cleaned_data (some fo) = Except.ok d ∧
        d = dropDuplicates ((listCsvFiles fo.files).filterMap (fun f => f.content)).flatten) := by
  refine ⟨?_, ?_, ?_⟩
  · intro h
    rw [load_cleaned_data_some, h]
    rfl
  · intro hne hall
    have hfm : (listCsvFiles fo.files).filterMap (fun f => f.content) = [] :=
      List.filterMap_eq_nil_iff.mpr hall
    rw [load_cleaned_data_some, hfm]
    simp [List.isEmpty_iff, hne]
  · intro hex
    obtain ⟨f, hf, hfc⟩ := hex
    have h1 : listCsvFiles fo.files ≠ [] := by
      intro h
      rw [h] at hf
      cases hf
    have h2 : (listCsvFiles fo.files).filterMap (fun f => f.content) ≠ [] := by
      intro h
      exact hfc (List.filterMap_eq_nil_iff.mp h f hf)
    refine ⟨_, ?_, rfl⟩
    rw [load_cleaned_data_some]
    simp [List.isEmpty_iff, h1, h2]

/-- Input for the C5 witness: a folder without CSV files. -/
def noCsvFolder : Folder := ⟨[⟨"x.txt", some []⟩]⟩

/-- Input for the C5 witness: a folder whose only CSV file fails to load. -/
def allFailFolder : Folder := ⟨[⟨"a.csv", none⟩]⟩

/-- Input for the C5 witness: a folder with one loadable CSV file. -/
def goodFolder : Folder := ⟨[⟨"a.csv", some [[Value.num 1]]⟩]⟩

theorem claim_C5_witness :
    load_cleaned_data (some noCsvFolder) = Except.error LoadError.emptyFolder ∧
    load_cleaned_data (some allFailFolder) = Except.error LoadError.noDataLoaded ∧
    ∃ d, load_cleaned_data (some goodFolder) = Except.ok d ∧
      d = dropDuplicates ((listCsvFiles goodFolder.files).filterMap
        (fun f => f.content)).flatten :=
  ⟨(claim_C5 noCsvFolder).1 (by decide),
   (claim_C5 allFailFolder).2.1 (by decide) (by decide),
   (claim_C5 goodFolder).2.2 ⟨⟨"a.csv", some [[Value.num 1]]⟩, by decide, by decide⟩⟩

theorem dropDuplicates_nil {α : Type u} [DecidableEq α] :
    dropDuplicates ([] : List α) = [] := by
  rw [dropDuplicates]

theorem dropDuplicates_cons {α : Type u} [DecidableEq α] (a : α) (l : List α) :
    dropDuplicates (a :: l) = a :: dropDuplicates (l.filter (fun b => b ≠ a)) := by
  rw [dropDuplicates]

theorem mem_dropDuplicates_aux {α : Type u} [DecidableEq α] :
    ∀ (n : ℕ) (l : List α), l.length ≤ n → ∀ x, (x ∈ dropDuplicates l ↔ x ∈ l) := by
  intro n
  induction n with
  | zero =>
    intro l hl x
    rw [Nat.le_zero, List.length_eq_zero] at hl
    subst hl
    rw [dropDuplicates_nil]
  | succ n ih =>
    intro l hl x
    cases l with
    | nil => rw [dropDuplicates_nil]
    | cons a t =>
      rw [dropDuplicates_cons]
      have hlen : (t.filter (fun b => b ≠ a)).length ≤ n := by
        have h1 := t.length_filter_le (fun b => b ≠ a)
        simp only [List.length_cons] at hl
        omega
      constructor
      · intro hx
        rcases List.mem_cons.mp hx with hx | hx
        · exact hx ▸ List.mem_cons_self a t
        · have := (ih _ hlen x).mp hx
          exact List.mem_cons_of_mem a (List.mem_of_mem_filter this)
      · intro hx
        rcases List.mem_cons.mp hx with hx | hx
        · exact hx ▸ List.mem_cons_self a _
        · by_cases hxa : x = a
          · exact hxa ▸ List.mem_cons_self a _
          · refine List.mem_cons_of_mem a ((ih _ hlen x).mpr ?_)
            rw [List.mem_filter]
            exact ⟨hx, by simpa using hxa⟩

theorem mem_dropDuplicates {α : Type u} [DecidableEq α] (x : α) (l : List α) :
    x ∈ dropDuplicates l ↔ x ∈ l :=
  mem_dropDuplicates_aux l.length l le_rfl x

theorem nodup_dropDuplicates_aux {α : Type u} [DecidableEq α] :
    ∀ (n : ℕ) (l : List α), l.length ≤ n → (dropDuplicates l).Nodup := by
  intro n
  induction n with
  | zero =>
    intro l hl
    rw [Nat.le_zero, List.length_eq_zero] at hl
    subst hl
    rw [dropDuplicates_nil]
    exact List.nodup_nil
  | succ n ih =>
    intro l hl
    cases l with
    | nil =>
      rw [dropDuplicates_nil]
      exact List.nodup_nil
    | cons a t =>
      rw [dropDuplicates_cons]
      have hlen : (t.filter (fun b => b ≠ a)).length ≤ n := by
        have h1 := t.length_filter_le (fun b => b ≠ a)
        simp only [List.length_cons] at hl
        omega
      refine List.nodup_cons.mpr ⟨?_, ih _ hlen⟩
      intro ha
      have := (mem_dropDuplicates_aux n (t.filter (fun b => b ≠ a)) hlen a).mp ha
      have := List.of_mem_filter this
      simp at this

theorem nodup_dropDuplicates {α : Type u} [DecidableEq α] (l : List α) :
    (dropDuplicates l).Nodup :=
  nodup_dropDuplicates_aux l.length l le_rfl

theorem dropDuplicates_sublist_aux {α : Type u} [DecidableEq α] :
    ∀ (n : ℕ) (l : List α), l.length ≤ n → List.Sublist (dropDuplicates l) l := by
  intro n
  induction n with
  | zero =>
    intro l hl
    rw [Nat.le_zero, List.length_eq_zero] at hl
    subst hl
    rw [dropDuplicates_nil]
  | succ n ih =>
    intro l hl
    cases l with
    | nil => rw [dropDuplicates_nil]
    | cons a t =>
      rw [dropDuplicates_cons]
      have hlen : (t.filter (fun b => b ≠ a)).length ≤ n := by
        have h1 := t.length_filter_le (fun b => b ≠ a)
        simp only [List.length_cons] at hl
        omega
      exact List.Sublist.cons₂ a ((ih _ hlen).trans (List.filter_sublist t))

theorem dropDuplicates_sublist {α : Type u} [DecidableEq α] (l : List α) :
    List.Sublist (dropDuplicates l) l :=
  dropDuplicates_sublist_aux l.length l le_rfl

theorem dropDuplicates_eq_self_aux {α : Type u} [DecidableEq α] :
    ∀ (n : ℕ) (l : List α), l.length ≤ n → l.Nodup → dropDuplicates l = l := by
  intro n
  induction n with
  | zero =>
    intro l hl _
    rw [Nat.le_zero, List.length_eq_zero] at hl
    subst hl
    rw [dropDuplicates_nil]
  | succ n ih =>
    intro l hl hnd
    cases l with
    | nil => rw [dropDuplicates_nil]
    | cons a t =>
      rw [dropDuplicates_cons]
      have hat := List.nodup_cons.mp hnd
      have hft : t.filter (fun b => b ≠ a) = t := by
        apply List.filter_eq_self.mpr
        intro b hb
        have : b ≠ a := by
          intro hba
          exact hat.1 (hba ▸ hb)
        simpa using this
      rw [hft]
      have hlen : t.length ≤ n := by
        simp only [List.length_cons] at hl
        omega
      rw [ih _ hlen hat.2]

theorem dropDuplicates_eq_self {α : Type u} [DecidableEq α] {l : List α} (h : l.Nodup) :
    dropDuplicates l = l :=
  dropDuplicates_eq_self_aux l.length l le_rfl h

theorem dropDuplicates_idem {α : Type u} [DecidableEq α] (l : List α) :
    dropDuplicates (dropDuplicates l) = dropDuplicates l :=
  dropDuplicates_eq_self (nodup_dropDuplicates l)

/-- Claim C6: the loader's duplicate removal is idempotent — on an
already-deduplicated dataset it removes nothing — its result has no two
equal rows, it keeps rows of the input in order (first occurrences), drops
nothing that is not a duplicate, and any dataset the loader returns is a
fixed point of deduplication. -/
theorem claim_C6 (l : List Row) :
    dropDuplicates (dropDuplicates l) = dropDuplicates l ∧
    (dropDuplicates l).Nodup ∧
    List.Sublist (dropDuplicates l) l ∧
    (∀ r : Row, r ∈ dropDuplicates l ↔ r ∈ l) ∧
    (l.Nodup → dropDuplicates l = l) ∧
    (∀ fo : Folder, load_cleaned_data (some fo) = Except.ok l → dropDuplicates l = l) := by
  refine ⟨dropDuplicates_idem l, nodup_dropDuplicates l, dropDuplicates_sublist l,
    fun r => mem_dropDuplicates r l, fun h => dropDuplicates_eq_self h, ?_⟩
  intro fo h
  rw [load_cleaned_data_some] at h
  by_cases h1 : (listCsvFiles fo.files).isEmpty
  · rw [if_pos h1] at h
    cases h
  · rw [if_neg h1] at h
    by_cases h2 : ((listCsvFiles fo.files).filterMap (fun f => f.content)).isEmpty
    · rw [if_pos h2] at h
      cases h
    · rw [if_neg h2] at h
      have hl := Except.ok.inj h
      rw [← hl]
      exact dropDuplicates_idem _

theorem claim_C6_witness :
    dropDuplicates (dropDuplicates ([[Value.num 1], [Value.num 2], [Value.num 1]] : List Row)) =
      dropDuplicates [[Value.num 1], [Value.num 2], [Value.num 1]] ∧
    dropDuplicates ([[Value.num 1], [Value.num 2]] : List Row) = [[Value.num 1], [Value.num 2]] :=
  ⟨(claim_C6 [[Value.num 1], [Value.num 2], [Value.num 1]]).1,
   (claim_C6 [[Value.num 1], [Value.num 2]]).2.2.2.2.1 (by decide)⟩

/-! ### CSV discovery: claim C3 -/

/-- Counterexample to claim C3: a file named "A.CSV" matches the CSV
extension case-insensitively, yet neither pipeline's discovery selects it —
`f.endswith('.csv')` is case-sensitive. -/
theorem claim_C3_counterexample :
    csvCaseInsensitive "A.CSV" = true ∧
    listCsvFiles [⟨"A.CSV", some []⟩] = [] ∧
    listCsvFiles [⟨"A.CSV", some []⟩] ≠
      List.filter (fun f => csvCaseInsensitive f.name) [⟨"A.CSV", some []⟩] := by
  refine ⟨by decide, by decide, by decide⟩

/-- Claim C3, amended: both pipelines select exactly the files whose name
ends with the lowercase extension ".csv" (a case-sensitive match): adding a
file whose name does not end in ".csv" — such as one ending in ".CSV" —
changes neither the cleaning batch nor the loader's result. -/
theorem claim_C3 (files : List CsvFile) (f : CsvFile) (n : ℕ) (p : Value) (log0 : List String)
    (h : endsWithCsv f.name = false) :
    process_all_csv_files (some ⟨files ++ [f]⟩) n p log0 =
      process_all_csv_files (some ⟨files⟩) n p log0 ∧
    load_cleaned_data (some ⟨files ++ [f]⟩) = load_cleaned_data (some ⟨files⟩) := by
  have hlist : listCsvFiles (files ++ [f]) = listCsvFiles files := by
    unfold listCsvFiles
    rw [List.filter_append]
    simp [List.filter_cons, h]
  constructor
  · rw [process_some, process_some]
    have hfl : (Folder.mk (files ++ [f])).files = files ++ [f] := rfl
    rw [hfl, hlist]
  · rw [load_cleaned_data_some, load_cleaned_data_some]
    have hfl : (Folder.mk (files ++ [f])).files = files ++ [f] := rfl
    rw [hfl, hlist]

theorem claim_C3_witness :
    endsWithCsv "b.CSV" = false ∧
    (process_all_csv_files
        (some ⟨[⟨"a.csv", some [[Value.num 1]]⟩] ++ [⟨"b.CSV", some [[Value.num 2]]⟩]⟩)
        1 (Value.str "N/A") [] =
      process_all_csv_files (some ⟨[⟨"a.csv", some [[Value.num 1]]⟩]⟩) 1 (Value.str "N/A") [] ∧
    load_cleaned_data
        (some ⟨[⟨"a.csv", some [[Value.num 1]]⟩] ++ [⟨"b.CSV", some [[Value.num 2]]⟩]⟩) =
      load_cleaned_data (some ⟨[⟨"a.csv", some [[Value.num 1]]⟩]⟩)) :=
  ⟨by decide,
   claim_C3 [⟨"a.csv", some [[Value.num 1]]⟩] ⟨"b.CSV", some [[Value.num 2]]⟩ 1 (Value.str "N/A")
     [] (by decide)⟩

end DftPipeline
